import Mathlib

/-!
Shallow embedding of `src/subbook.rs` (EPWING subbook reader).

Modelling conventions:
* A byte stream is a `List Nat` of byte values; the text-stream decoder
  (`read_text` in the source) reads strictly sequentially, so it consumes the
  list from the front; end-of-stream reads fail with the `Io` error, matching
  `try!(io.read_u8())` at EOF.
* Rust's `String` is modelled as `List Char`; `Vec::push` on the element
  accumulator is modelled by consing onto a reversed accumulator which is
  reversed once at the end, so `text.last_mut()` in the source corresponds to
  the head of the accumulator here.
* The external capabilities (`jis0208::decode_codepoint`,
  `unicode::char::width`, `unicode::char::decompose_compatible`) are
  parameters, bundled in `Caps`.  `decompose_compatible` in the source drives
  a callback once per character of the decomposition; it is modelled as a
  function to the list of characters the callback receives.
* Machine integers are `Nat` with explicit `% 2^32` where the source's `u32`
  arithmetic can wrap.
-/

/-- `IndexLocation` from the source: a 1-based page number and a page count. -/
structure IndexLocation where
  page : Nat
  length : Nat
deriving DecidableEq, Repr

/-- `Indices` from the source: the recognized section locations. -/
structure Indices where
  menu : Option IndexLocation
  copyright : Option IndexLocation
deriving DecidableEq, Repr

/-- The only I/O failure the pure byte-list model can produce: reading or
seeking past the end of the data (Rust's `IoError` from a short read). -/
inductive IoErr where
  | eof
deriving DecidableEq, Repr

/-- `Error` from the source. -/
inductive Error where
  | Io (e : IoErr)
  | InvalidEncoding
  | InvalidControlCode (cc : Nat)
deriving DecidableEq, Repr

/-- `TextElement` from the source (`String` as `List Char`). -/
inductive TextElement where
  | UnicodeString (s : List Char)
  | CustomCharacter (cp : Nat)
  | Newline
deriving DecidableEq, Repr

/-- `Text` from the source: ordered sequence of elements. -/
structure Text where
  elems : List TextElement
deriving DecidableEq, Repr

/-- The external capabilities the text decoder consults. -/
structure Caps where
  decode_codepoint : Nat → Option Char
  width : Char → Bool → Option Nat
  decompose_compatible : Char → List Char

/-- The narrow-mode substitution in `read_text`: if `is_narrow` and the
character has display width 2, run `decompose_compatible` with a callback that
overwrites `ch` with each decomposed character in turn (so the last one wins);
otherwise keep the character. -/
def narrowCh (caps : Caps) (is_narrow : Bool) (ch : Char) : Char :=
  if is_narrow then
    match caps.width ch true with
    | some 2 => (caps.decompose_compatible ch).foldl (fun _ c => c) ch
    | _ => ch
  else ch

/-- The character-append step of `read_text`: if the last pushed element (the
head of the reversed accumulator) is a `UnicodeString`, push the character onto
it, otherwise push a fresh one-character `UnicodeString`. -/
def pushChar (acc : List TextElement) (ch : Char) : List TextElement :=
  match acc with
  | .UnicodeString s :: rest => .UnicodeString (s ++ [ch]) :: rest
  | _ => .UnicodeString [ch] :: acc

/-- The loop of `read_text` in the source, one recursive call per iteration.
State: the remaining stream, `is_narrow`, `delimiter_keyword`, and the
(reversed) element accumulator. -/
def readTextLoop (caps : Caps) :
    List Nat → Bool → Option Nat → List TextElement →
    Except Error (List TextElement)
  | [], _, _, _ => .error (.Io .eof)
  | b :: rest, is_narrow, delim, acc =>
    if b = 0x1f then
      match rest with
      | [] => .error (.Io .eof)
      | c :: rest2 =>
        if c = 0x02 then readTextLoop caps rest2 is_narrow delim acc
        else if c = 0x03 then .ok acc
        else if c = 0x04 then readTextLoop caps rest2 true delim acc
        else if c = 0x05 then readTextLoop caps rest2 false delim acc
        else if c = 0x0a then readTextLoop caps rest2 is_narrow delim (.Newline :: acc)
        else if c = 0x41 then
          match rest2 with
          | hi :: lo :: rest3 =>
            if delim = some (hi * 256 + lo) then .ok acc
            else if delim = none then
              readTextLoop caps rest3 is_narrow (some (hi * 256 + lo)) acc
            else readTextLoop caps rest3 is_narrow delim acc
          | _ => .error (.Io .eof)
        else if c = 0x61 then readTextLoop caps rest2 is_narrow delim acc
        else .error (.InvalidControlCode c)
    else
      match rest with
      | [] => .error (.Io .eof)
      | other :: rest2 =>
        match caps.decode_codepoint (b * 256 + other) with
        | some ch =>
          readTextLoop caps rest2 is_narrow delim
            (pushChar acc (narrowCh caps is_narrow ch))
        | none =>
          readTextLoop caps rest2 is_narrow delim
            (.CustomCharacter (b * 256 + other) :: acc)

/-- `read_text` in the source: run the loop with `is_narrow = false`,
`delimiter_keyword = None` and an empty accumulator, and wrap the accumulated
elements (restored to stream order) in `Text`. -/
def read_text (caps : Caps) (stream : List Nat) : Except Error Text :=
  match readTextLoop caps stream false none [] with
  | .error e => .error e
  | .ok acc => .ok ⟨acc.reverse⟩

/-! ## The index-table parser

`Indices::read_from` seeks and reads on a `Reader+Seek` stream.  To settle the
claims about *which* operations it performs (not only what it returns), the
stream is modelled as a state that records the trace of seek/read events in
the order they are issued (newest first in `trace`). -/

/-- A primitive I/O event on the stream: an absolute seek, or a read of a
number of bytes. -/
inductive Ev where
  | seek (target : Nat)
  | read (count : Nat)
deriving DecidableEq, Repr

/-- The reader state: the underlying bytes, the cursor, and the (reversed)
event trace. -/
structure RState where
  stream : List Nat
  pos : Nat
  trace : List Ev
deriving DecidableEq, Repr

/-- `io.seek(t, SeekSet)`: set the cursor to the absolute target. -/
def rSeek (t : Nat) (s : RState) : RState :=
  { s with pos := t, trace := .seek t :: s.trace }

/-- A read of `n` bytes from the cursor: fails (short read) unless `n` bytes
are available, otherwise returns them and advances the cursor. -/
def rRead (n : Nat) (s : RState) : Except IoErr (List Nat × RState) :=
  if s.pos + n ≤ s.stream.length then
    .ok ((s.stream.drop s.pos).take n,
      { s with pos := s.pos + n, trace := .read n :: s.trace })
  else .error .eof

/-- Big-endian value of a byte list (how `read_be_u16`/`read_be_u32` combine
the bytes they read). -/
def beVal (bs : List Nat) : Nat :=
  bs.foldl (fun a b => a * 256 + b) 0

/-- `io.read_u8()`. -/
def rReadU8 (s : RState) : Except IoErr (Nat × RState) :=
  match rRead 1 s with
  | .error e => .error e
  | .ok (bs, s') => .ok (bs.headD 0, s')

/-- `io.read_be_u32()`. -/
def rReadBeU32 (s : RState) : Except IoErr (Nat × RState) :=
  match rRead 4 s with
  | .error e => .error e
  | .ok (bs, s') => .ok (beVal bs, s')

/-- The `match index_id` dispatch in `Indices::read_from`: id `0x01` stores
the location as `menu`, `0x02` as `copyright`, anything else is ignored. -/
def applyEntry (ics : Indices) (index_id : Nat) (loc : IndexLocation) : Indices :=
  match index_id with
  | 0x01 => { ics with menu := some loc }
  | 0x02 => { ics with copyright := some loc }
  | _ => ics

/-- The seek target of entry `i` in `Indices::read_from`: the source computes
`16 + i * 16` in `u8` arithmetic (`i` is a `u8`, drawn from
`range(0, n_indices)` with `n_indices: u8`), so it wraps modulo 256 — entry 15
seeks to 0, not 256. -/
def entryOffset (i : Nat) : Nat := (16 + i * 16) % 256

/-- One iteration of the entry loop in `Indices::read_from`: seek to the
(`u8`-wrapped) entry offset, then read id (1 byte), a skipped byte
(`read_exact(1)`), the big-endian start page (4 bytes), the big-endian page
count (4 bytes), and the availability flag (1 byte, read but not retained). -/
def readEntry (i : Nat) (s : RState) :
    Except IoErr ((Nat × IndexLocation) × RState) :=
  match rReadU8 (rSeek (entryOffset i) s) with
  | .error e => .error e
  | .ok (index_id, s) =>
    match rRead 1 s with
    | .error e => .error e
    | .ok (_, s) =>
      match rReadBeU32 s with
      | .error e => .error e
      | .ok (start_page, s) =>
        match rReadBeU32 s with
        | .error e => .error e
        | .ok (page_count, s) =>
          match rReadU8 s with
          | .error e => .error e
          | .ok (_avail, s) =>
            .ok ((index_id, ⟨start_page, page_count⟩), s)

/-- The `for i in range(0, n_indices)` loop of `Indices::read_from`,
processing entries `i, i+1, …` while `remaining` counts down. -/
def readEntries (remaining i : Nat) (ics : Indices) (s : RState) :
    Except IoErr (Indices × RState) :=
  match remaining with
  | 0 => .ok (ics, s)
  | n + 1 =>
    match readEntry i s with
    | .error e => .error e
    | .ok ((index_id, loc), s') =>
      readEntries n (i + 1) (applyEntry ics index_id loc) s'

/-- `Indices::read_from`: seek 1, read `n_indices`; seek 4, read the global
availability flag (not retained); then the entry loop starting from an empty
`Indices`. -/
def Indices.read_from (s : RState) : Except IoErr (Indices × RState) :=
  match rReadU8 (rSeek 1 s) with
  | .error e => .error e
  | .ok (n_indices, s) =>
    match rReadU8 (rSeek 4 s) with
    | .error e => .error e
    | .ok (_global_avail, s) =>
      readEntries n_indices 0 ⟨none, none⟩ s

/-- A fresh reader over the given bytes: cursor 0, empty trace. -/
def initR (bytes : List Nat) : RState := ⟨bytes, 0, []⟩

/-! ## The Subbook facade -/

/-- `Subbook`: the owned stream and the parsed indices. -/
structure Subbook where
  io : RState
  indices : Indices
deriving DecidableEq, Repr

/-- `Subbook::from_io`: parse the index table once; an I/O failure is wrapped
in `Error.Io` by the `FromError` impl. -/
def Subbook.from_io (s : RState) : Except Error Subbook :=
  match Indices.read_from s with
  | .error e => .error (.Io e)
  | .ok (ics, s') => .ok ⟨s', ics⟩

/-- Wrapping `u32` arithmetic. -/
def u32 (n : Nat) : Nat := n % 4294967296

/-- The seek target computed by `Subbook::read_text`:
`((page - 1) * 0x800 + offset as u32) as i64` in `u32` arithmetic (`page` is a
`u32`, so `page - 1` itself wraps at `page = 0`; the final cast to `i64` is
the identity on `u32` values). -/
def seek_target (page offset : Nat) : Nat :=
  u32 (u32 (u32 (page + 4294967295) * 0x800) + offset)

/-- Alias for the free decoder function, usable inside the `Subbook`
namespace where the bare name `read_text` would refer to the method. -/
def streamDecode : Caps → List Nat → Except Error Text := read_text

/-- `Subbook::read_text(page, offset)`: seek the owned stream to the computed
absolute position, then run the text-stream decoder from there (sequential
reading from position `p` of the stream is reading the list with the first
`p` bytes dropped). -/
def Subbook.read_text (caps : Caps) (sb : Subbook) (page offset : Nat) :
    Except Error Text :=
  streamDecode caps (sb.io.stream.drop (seek_target page offset))

/-! ## Predicates and spec-side functions the claims are stated with -/

/-- Is a text element a `UnicodeString`? -/
def isUS : TextElement → Bool
  | .UnicodeString _ => true
  | _ => false

/-- The coalescing invariant: no two adjacent `UnicodeString` elements. -/
def noAdjUS : List TextElement → Bool
  | [] => true
  | [_] => true
  | a :: b :: rest => (!(isUS a && isUS b)) && noAdjUS (b :: rest)

/-- Total number of characters held in `UnicodeString` elements. -/
def totalChars : List TextElement → Nat
  | [] => 0
  | .UnicodeString s :: rest => s.length + totalChars rest
  | _ :: rest => totalChars rest

/-- Does every read event in a chronological trace come immediately after a
seek event?  The first argument says whether the previous event was a seek. -/
def readsSeeked : Bool → List Ev → Bool
  | _, [] => true
  | prev, e :: rest =>
    match e with
    | .seek _ => readsSeeked true rest
    | .read _ => prev && readsSeeked false rest

/-- The chronological event sequence `Indices::read_from` issues for entry
`i`: one seek to the entry's (`u8`-wrapped) offset, then the five sequential
field reads. -/
def entryTrace (i : Nat) : List Ev :=
  [.seek (entryOffset i), .read 1, .read 1, .read 4, .read 4, .read 1]

/-- Event sequences for `n` consecutive entries starting at index `i`. -/
def entriesTrace : Nat → Nat → List Ev
  | 0, _ => []
  | n + 1, i => entryTrace i ++ entriesTrace n (i + 1)

/-- The chronological event sequence for the two header fields. -/
def headerTrace : List Ev :=
  [.seek 1, .read 1, .seek 4, .read 1]

/-- The chronological trace of a parser run over the given bytes, when it
succeeds. -/
def traceOfRun (bytes : List Nat) : Option (List Ev) :=
  match Indices.read_from (initR bytes) with
  | .ok (_, s') => some s'.trace.reverse
  | .error _ => none

/-- Did an index-parse attempt succeed? -/
def isOkE {α : Type} (r : Except IoErr α) : Bool :=
  match r with
  | .ok _ => true
  | .error _ => false

/-- Big-endian 32-bit value stored at position `p` of the byte list. -/
def be4 (bytes : List Nat) (p : Nat) : Nat :=
  ((bytes.getD p 0 * 256 + bytes.getD (p + 1) 0) * 256 +
      bytes.getD (p + 2) 0) * 256 + bytes.getD (p + 3) 0

/-- The section id byte of entry `i`, at the entry's `u8`-wrapped offset. -/
def entryId (bytes : List Nat) (i : Nat) : Nat :=
  bytes.getD (entryOffset i) 0

/-- The location fields of entry `i`: big-endian start page 2 bytes past the
entry's (`u8`-wrapped) offset, big-endian page count 6 bytes past it. -/
def entryLoc (bytes : List Nat) (i : Nat) : IndexLocation :=
  ⟨be4 bytes (entryOffset i + 2), be4 bytes (entryOffset i + 6)⟩

/-- The location of the **last** entry with section id `c` among entries
`i, i+1, …, i+n-1`, if any: the formal rendering of "the later occurrence
wins". -/
def lastLocIn (bytes : List Nat) (c : Nat) : Nat → Nat → Option IndexLocation
  | _, 0 => none
  | i, n + 1 =>
    match lastLocIn bytes c (i + 1) n with
    | some l => some l
    | none => if entryId bytes i = c then some (entryLoc bytes i) else none

/-! ## Concrete fixtures for witnesses and counterexamples -/

/-- Capabilities that resolve nothing (escape handling does not consult
them). -/
def caps0 : Caps := ⟨fun _ => none, fun _ _ => none, fun c => [c]⟩

/-- Capabilities where every codepoint resolves to a width-2 character whose
compatibility decomposition has three characters. -/
def capsW : Caps := ⟨fun _ => some 'A', fun _ _ => some 2, fun _ => ['x', 'y', 'z']⟩

/-- A subbook whose stream is a two-byte End Text sequence. -/
def sb0 : Subbook := ⟨⟨[0x1f, 0x03], 0, []⟩, ⟨none, none⟩⟩

/-- Index bytes: one entry, id `0x01`, start page 5, page count 3. -/
def bytesOneEntry : List Nat :=
  [0, 1, 0, 0, 0, 0, 0, 0, 0, 0, 0, 0, 0, 0, 0, 0,
   1, 0, 0, 0, 0, 5, 0, 0, 0, 3, 0]

/-- Index bytes: one entry, id `0x01`, start page 0 (a stored page below 1). -/
def bytesZeroPage : List Nat :=
  [0, 1, 0, 0, 0, 0, 0, 0, 0, 0, 0, 0, 0, 0, 0, 0,
   1, 0, 0, 0, 0, 0, 0, 0, 0, 7, 0]

/-- Index bytes: two entries, both id `0x01` (a duplicate id): first with
start page 5 / count 3, second with start page 10 / count 1. -/
def bytesDup : List Nat :=
  [0, 2, 0, 0, 0, 0, 0, 0, 0, 0, 0, 0, 0, 0, 0, 0,
   1, 0, 0, 0, 0, 5, 0, 0, 0, 3, 0, 0, 0, 0, 0, 0,
   1, 0, 0, 0, 0, 10, 0, 0, 0, 1, 0]

/-- Index bytes: two entries with ids `0x01` and `0x02`, start pages 5 and
10 (spec §8 scenario 1). -/
def bytesTwo : List Nat :=
  [0, 2, 0, 0, 0, 0, 0, 0, 0, 0, 0, 0, 0, 0, 0, 0,
   1, 0, 0, 0, 0, 5, 0, 0, 0, 3, 0, 0, 0, 0, 0, 0,
   2, 0, 0, 0, 0, 10, 0, 0, 0, 1, 0]

/-- Index bytes: one entry with the unrecognized id `0x03`. -/
def bytesId3 : List Nat :=
  [0, 1, 0, 0, 0, 0, 0, 0, 0, 0, 0, 0, 0, 0, 0, 0,
   3, 0, 0, 0, 0, 5, 0, 0, 0, 3, 0]

/-- Final reader state of a successful parse of `bytesOneEntry`. -/
def stOneEntry : RState :=
  ⟨bytesOneEntry, 27,
   [.read 1, .read 4, .read 4, .read 1, .read 1, .seek 16,
    .read 1, .seek 4, .read 1, .seek 1]⟩

/-- Final reader state of a successful parse of a two-entry table
(`bytesTwo` and `bytesDup` differ only in byte values, not trace). -/
def stTwoEntries (bytes : List Nat) : RState :=
  ⟨bytes, 43,
   [.read 1, .read 4, .read 4, .read 1, .read 1, .seek 32,
    .read 1, .read 4, .read 4, .read 1, .read 1, .seek 16,
    .read 1, .seek 4, .read 1, .seek 1]⟩

/-- Reader state after processing the single entry of `bytesId3`. -/
def stId3 : RState :=
  ⟨bytesId3, 27, [.read 1, .read 4, .read 4, .read 1, .read 1, .seek 16]⟩

-- sanity checks while developing
example :
    read_text ⟨fun _ => none, fun _ _ => none, fun c => [c]⟩ [0x1f, 0x03] =
      .ok ⟨[]⟩ := rfl

example :
    read_text ⟨fun _ => none, fun _ _ => none, fun c => [c]⟩
      [0x1f, 0x02, 0x1f, 0x41, 0x00, 0x01, 0x1f, 0x41, 0x00, 0x01] =
      .ok ⟨[]⟩ := rfl

example :
    read_text ⟨fun _ => none, fun _ _ => none, fun c => [c]⟩
      [0x1f, 0x02, 0x1f, 0xff] = .error (.InvalidControlCode 0xff) := rfl

-- spec §8 scenario 1: two entries, menu at page 5 (3 pages), copyright at
-- page 10 (1 page)
example :
    (Indices.read_from (initR
      [0, 2, 0, 0, 0, 0, 0, 0, 0, 0, 0, 0, 0, 0, 0, 0,
       1, 0, 0, 0, 0, 5, 0, 0, 0, 3, 0, 0, 0, 0, 0, 0,
       2, 0, 0, 0, 0, 10, 0, 0, 0, 1, 0])).map (·.1) =
      .ok ⟨some ⟨5, 3⟩, some ⟨10, 1⟩⟩ := rfl

/-! ## Shared helper lemmas -/

/-- A fold that lets each list element overwrite the accumulator yields the
last element (the callback pattern of `decompose_compatible` in the source). -/
theorem foldl_overwrite {α : Type} (l : List α) (a : α) :
    l.foldl (fun _ c => c) a = l.getLastD a := by
  induction l generalizing a with
  | nil => rfl
  | cons x xs ih => rw [List.foldl_cons, List.getLastD_cons]; exact ih x

/-! ## Claims about the text-stream decoder -/

/-- **C1.** Keyword-delimiter behavior of the decoder loop: with no recorded
delimiter (which is exactly the state at the first Begin Keyword, since only
this branch ever sets it), the big-endian 16-bit value after `0x1f 0x41` is
recorded and the loop continues with unchanged output; with a recorded
delimiter equal to the value, the loop stops successfully with the elements
accumulated so far; with a recorded delimiter different from the value,
neither the recorded delimiter nor the output changes. -/
theorem c1_keyword_delimiter (caps : Caps) (hi lo k : Nat) (rest : List Nat)
    (is_narrow : Bool) (acc : List TextElement) :
    (readTextLoop caps (0x1f :: 0x41 :: hi :: lo :: rest) is_narrow none acc =
        readTextLoop caps rest is_narrow (some (hi * 256 + lo)) acc)
    ∧ (hi * 256 + lo = k →
        readTextLoop caps (0x1f :: 0x41 :: hi :: lo :: rest) is_narrow (some k) acc =
          .ok acc)
    ∧ (hi * 256 + lo ≠ k →
        readTextLoop caps (0x1f :: 0x41 :: hi :: lo :: rest) is_narrow (some k) acc =
          readTextLoop caps rest is_narrow (some k) acc) := by
  refine ⟨?_, ?_, ?_⟩
  · simp [readTextLoop]
  · intro h; subst h; simp [readTextLoop]
  · intro h; simp [readTextLoop, Ne.symm h]

/-- Witness for C1 at concrete inputs (keyword value `0x0001`). -/
theorem c1_keyword_delimiter_witness :
    (readTextLoop caps0 [0x1f, 0x41, 0x00, 0x01, 0x1f, 0x03] false none [] =
        readTextLoop caps0 [0x1f, 0x03] false (some (0 * 256 + 1)) [])
    ∧ readTextLoop caps0 [0x1f, 0x41, 0x00, 0x01] false (some 1) [] = .ok []
    ∧ readTextLoop caps0 [0x1f, 0x41, 0x00, 0x02] false (some 1) [] =
        readTextLoop caps0 [] false (some 1) [] :=
  ⟨(c1_keyword_delimiter caps0 0 1 1 [0x1f, 0x03] false []).1,
   (c1_keyword_delimiter caps0 0 1 1 [] false []).2.1 (by decide),
   (c1_keyword_delimiter caps0 0 2 1 [] false []).2.2 (by decide)⟩

/-- **C3.** An escape marker `0x1f` whose second byte is outside
`{0x02, 0x03, 0x04, 0x05, 0x0a, 0x41, 0x61}` makes the decoder loop abort
with `InvalidControlCode` carrying exactly that byte, from any loop state. -/
theorem c3_invalid_control_code (caps : Caps) (b : Nat)
    (h : b ∉ ([0x02, 0x03, 0x04, 0x05, 0x0a, 0x41, 0x61] : List Nat))
    (rest : List Nat) (is_narrow : Bool) (delim : Option Nat)
    (acc : List TextElement) :
    readTextLoop caps (0x1f :: b :: rest) is_narrow delim acc =
      .error (.InvalidControlCode b) := by
  simp only [List.mem_cons, List.not_mem_nil, or_false, not_or] at h
  obtain ⟨h2, h3, h4, h5, ha, h41, h61⟩ := h
  rw [readTextLoop.eq_def]
  simp [h2, h3, h4, h5, ha, h41, h61]

/-- Witness for C3 at the concrete byte `0xff` (spec §8 scenario 3). -/
theorem c3_invalid_control_code_witness :
    readTextLoop caps0 [0x1f, 0xff] false none [] =
      .error (.InvalidControlCode 0xff) :=
  c3_invalid_control_code caps0 0xff (by decide) [] false none []

/-- **C10.** Narrow-mode decomposition: when a resolved scalar has display
width 2, the decoder substitutes the final scalar of its compatibility
decomposition (each decomposed character overwrites the one-character
accumulator), the loop appends exactly one character to the accumulated text
whatever the decomposition length, and a scalar whose decomposition is just
itself is kept unchanged. -/
theorem c10_narrow_decomposition (caps : Caps) (ch : Char)
    (hw : caps.width ch true = some 2) :
    narrowCh caps true ch = (caps.decompose_compatible ch).getLastD ch
    ∧ (∀ b other rest delim acc, ¬ b = 0x1f →
        caps.decode_codepoint (b * 256 + other) = some ch →
        readTextLoop caps (b :: other :: rest) true delim acc =
          readTextLoop caps rest true delim
            (pushChar acc ((caps.decompose_compatible ch).getLastD ch)))
    ∧ (∀ acc c, totalChars (pushChar acc c) = totalChars acc + 1)
    ∧ (caps.decompose_compatible ch = [ch] → narrowCh caps true ch = ch) := by
  have h1 : narrowCh caps true ch = (caps.decompose_compatible ch).getLastD ch := by
    simp [narrowCh, hw, foldl_overwrite]
  refine ⟨h1, ?_, ?_, ?_⟩
  · intro b other rest delim acc hb hdec
    rw [readTextLoop.eq_def]
    simp [hb, hdec, h1]
  · intro acc c
    match acc with
    | [] => simp [pushChar, totalChars]
    | .UnicodeString s :: rest => simp [pushChar, totalChars]; omega
    | .CustomCharacter cp :: rest => simp [pushChar, totalChars]; omega
    | .Newline :: rest => simp [pushChar, totalChars]; omega
  · intro h
    rw [h1, h]
    simp [List.getLastD_cons]

/-- Witness for C10 at a concrete three-character decomposition. -/
theorem c10_narrow_decomposition_witness :
    narrowCh capsW true 'A' = 'z'
    ∧ readTextLoop capsW [0x30, 0x21, 0x1f, 0x03] true none [] =
        readTextLoop capsW [0x1f, 0x03] true none
          (pushChar [] ((capsW.decompose_compatible 'A').getLastD 'A'))
    ∧ totalChars (pushChar [] 'z') = totalChars [] + 1 := by
  obtain ⟨h1, h2, h3, _⟩ := c10_narrow_decomposition capsW 'A' rfl
  exact ⟨h1.trans (by decide), h2 0x30 0x21 [0x1f, 0x03] none [] (by decide) rfl,
    h3 [] 'z'⟩

/-! ## Claims about the Subbook facade -/

/-- **C4, counterexample.** At `page = 2097153`, `offset = 0`, the position
the code seeks to is the `u32`-wrapped `0`, not the unbounded-arithmetic
value `(page-1) * 2048 + offset = 2^32`; decoding from the two positions of a
concrete subbook gives different results. -/
theorem c4_seek_position_cex :
    seek_target 2097153 0 = 0
    ∧ (2097153 - 1) * 2048 + 0 = 4294967296
    ∧ Subbook.read_text caps0 sb0 2097153 0 ≠
        streamDecode caps0 (sb0.io.stream.drop ((2097153 - 1) * 2048 + 0)) := by
  refine ⟨rfl, by norm_num, ?_⟩
  intro h
  have h1 : Subbook.read_text caps0 sb0 2097153 0 = .ok ⟨[]⟩ := rfl
  have h2 : streamDecode caps0 (sb0.io.stream.drop ((2097153 - 1) * 2048 + 0)) =
      .error (.Io .eof) := rfl
  rw [h1, h2] at h
  exact Except.noConfusion h

/-- **C4, amended.** For every `page ≥ 1` (in `u32` range, with a `u16`
offset), `Subbook::read_text` positions the stream at
`((page - 1) * 2048 + offset) mod 2^32` — the unbounded value reduced by the
`u32` arithmetic it is computed in — before decoding begins. -/
theorem c4_seek_position (caps : Caps) (sb : Subbook) (page offset : Nat)
    (h1 : 1 ≤ page) (h2 : page < 4294967296) (_h3 : offset < 65536) :
    seek_target page offset = ((page - 1) * 2048 + offset) % 4294967296
    ∧ Subbook.read_text caps sb page offset =
        streamDecode caps
          (sb.io.stream.drop (((page - 1) * 2048 + offset) % 4294967296)) := by
  have e1 : u32 (page + 4294967295) = page - 1 := by
    unfold u32; omega
  have e2 : seek_target page offset = ((page - 1) * 2048 + offset) % 4294967296 := by
    unfold seek_target
    rw [e1]
    unfold u32
    rw [Nat.mod_add_mod]
  exact ⟨e2, by unfold Subbook.read_text; rw [e2]⟩

/-- Witness for the amended C4 (spec §8 scenario 5 at page 3, offset 16). -/
theorem c4_seek_position_witness :
    seek_target 3 16 = ((3 - 1) * 2048 + 16) % 4294967296
    ∧ Subbook.read_text caps0 sb0 3 16 =
        streamDecode caps0 (sb0.io.stream.drop (((3 - 1) * 2048 + 16) % 4294967296)) :=
  c4_seek_position caps0 sb0 3 16 (by decide) (by decide) (by decide)

/-! ## C2: the coalescing invariant -/

/-- Pushing a `Newline` preserves the adjacency predicate unchanged. -/
theorem noAdjUS_newline (acc : List TextElement) :
    noAdjUS (.Newline :: acc) = noAdjUS acc := by
  cases acc <;> rfl

/-- Pushing a `CustomCharacter` preserves the adjacency predicate unchanged. -/
theorem noAdjUS_custom (cp : Nat) (acc : List TextElement) :
    noAdjUS (.CustomCharacter cp :: acc) = noAdjUS acc := by
  cases acc <;> rfl

/-- The coalescing push of a character never creates adjacent
`UnicodeString`s: it extends the head string when there is one and otherwise
starts a fresh string after a non-string element. -/
theorem noAdjUS_pushChar (acc : List TextElement) (ch : Char) :
    noAdjUS (pushChar acc ch) = noAdjUS acc := by
  match acc with
  | [] => rfl
  | .UnicodeString s :: rest => cases rest <;> rfl
  | .CustomCharacter cp :: rest => rfl
  | .Newline :: rest => rfl

/-- Every successful run of the decoder loop keeps the adjacency invariant of
its accumulator. -/
theorem readTextLoop_noAdjUS (caps : Caps) (stream : List Nat) (is_narrow : Bool)
    (delim : Option Nat) (acc : List TextElement) :
    noAdjUS acc = true → ∀ out, readTextLoop caps stream is_narrow delim acc = .ok out →
      noAdjUS out = true := by
  induction stream, is_narrow, delim, acc using readTextLoop.induct caps
  all_goals intro hacc out hrun
  all_goals rw [readTextLoop.eq_def] at hrun
  all_goals simp_all [noAdjUS_newline, noAdjUS_custom, noAdjUS_pushChar]

/-- `noAdjUS` as a chain condition on adjacent pairs. -/
theorem noAdjUS_chain (l : List TextElement) :
    noAdjUS l = true ↔ l.Chain' (fun a b => isUS a = false ∨ isUS b = false) := by
  induction l with
  | nil => simp [noAdjUS]
  | cons a l ih =>
    cases l with
    | nil => simp [noAdjUS]
    | cons b r =>
      rw [show noAdjUS (a :: b :: r) = ((!(isUS a && isUS b)) && noAdjUS (b :: r))
          from rfl,
        List.chain'_cons]
      cases hx : isUS a <;> cases hy : isUS b <;> simp [hx, hy, ih]

/-- The adjacency invariant is preserved by reversal (adjacent pairs are the
same pairs). -/
theorem noAdjUS_reverse (l : List TextElement) (h : noAdjUS l = true) :
    noAdjUS l.reverse = true := by
  rw [noAdjUS_chain] at h ⊢
  rw [List.chain'_reverse]
  exact List.Chain'.imp (fun a b hab => hab.symm) h

/-- **C2.** Every `Text` produced by a successful run of the text-stream
decoder contains no two adjacent `UnicodeString` elements: consecutive
resolvable codepoints are coalesced into one string run. -/
theorem c2_no_adjacent_unicode (caps : Caps) (stream : List Nat) (t : Text)
    (h : read_text caps stream = .ok t) : noAdjUS t.elems = true := by
  unfold read_text at h
  cases hrun : readTextLoop caps stream false none [] with
  | error e => rw [hrun] at h; exact Except.noConfusion h
  | ok acc =>
    rw [hrun] at h
    injection h with h'
    subst h'
    exact noAdjUS_reverse _ (readTextLoop_noAdjUS caps stream false none [] rfl acc hrun)

/-- Witness for C2 on a stream decoding to string, newline, string. -/
theorem c2_no_adjacent_unicode_witness :
    noAdjUS (Text.mk [.UnicodeString ['A'], .Newline, .UnicodeString ['A']]).elems
      = true :=
  c2_no_adjacent_unicode capsW [0x30, 0x21, 0x1f, 0x0a, 0x30, 0x21, 0x1f, 0x03]
    ⟨[.UnicodeString ['A'], .Newline, .UnicodeString ['A']]⟩ rfl

/-! ## C9: `InvalidEncoding` is never produced -/

/-- Every error of the decoder loop is end-of-stream `Io` or
`InvalidControlCode`. -/
theorem readTextLoop_error_shape (caps : Caps) (stream : List Nat) (is_narrow : Bool)
    (delim : Option Nat) (acc : List TextElement) :
    ∀ e, readTextLoop caps stream is_narrow delim acc = .error e →
      e = .Io .eof ∨ ∃ cc, e = .InvalidControlCode cc := by
  induction stream, is_narrow, delim, acc using readTextLoop.induct caps
  all_goals intro e hrun
  all_goals rw [readTextLoop.eq_def] at hrun
  all_goals simp_all
  all_goals exact Or.inr ⟨_, hrun.symm⟩

/-- **C9.** Neither the text-stream decoder nor the index-table parse behind
`Subbook::from_io` ever fails with `InvalidEncoding`: decoder failures are
`Io` or `InvalidControlCode`, and the parser's failures are `Io`-wrapped. -/
theorem c9_no_invalid_encoding :
    (∀ (caps : Caps) (stream : List Nat) (e : Error),
        read_text caps stream = .error e → e ≠ .InvalidEncoding)
    ∧ (∀ (s : RState) (e : Error),
        Subbook.from_io s = .error e → e ≠ .InvalidEncoding) := by
  constructor
  · intro caps stream e h
    unfold read_text at h
    cases hrun : readTextLoop caps stream false none [] with
    | ok acc => rw [hrun] at h; exact Except.noConfusion h
    | error e' =>
      rw [hrun] at h
      injection h with h'
      subst h'
      rcases readTextLoop_error_shape caps stream false none [] e' hrun with
        h | ⟨cc, h⟩ <;> subst h <;> simp
  · intro s e h
    unfold Subbook.from_io at h
    cases hio : Indices.read_from s with
    | error e' =>
      rw [hio] at h
      injection h with h'
      subst h'
      simp
    | ok p =>
      obtain ⟨ics, s'⟩ := p
      rw [hio] at h
      exact Except.noConfusion h

/-- Witness for C9 at the concrete failing input `[]` (end of stream). -/
theorem c9_no_invalid_encoding_witness :
    Error.Io .eof ≠ Error.InvalidEncoding :=
  c9_no_invalid_encoding.1 caps0 [] (.Io .eof) rfl

/-! ## The index-table parser: characterization lemmas -/

/-- The single byte produced by a 1-byte read at position `p`. -/
theorem headD_take_drop_getD (l : List Nat) (p : Nat) :
    ((l.drop p).take 1).headD 0 = l.getD p 0 := by
  induction l generalizing p with
  | nil => simp
  | cons a t ih =>
    cases p with
    | zero => rfl
    | succ q => simpa using ih q

/-- Variant of the previous lemma in the `head?`/`getElem?` normal form. -/
theorem headD_take_drop (l : List Nat) (p : Nat) :
    ((l.drop p).take 1).head?.getD 0 = l[p]?.getD 0 := by
  induction l generalizing p with
  | nil => simp
  | cons a t ih =>
    cases p with
    | zero => simp
    | succ q => simpa using ih q

/-- A 4-byte big-endian read at position `p` yields `be4`. -/
theorem beVal_take_drop (l : List Nat) (p : Nat) (h : p + 4 ≤ l.length) :
    beVal ((l.drop p).take 4) = be4 l p := by
  have h0 : p < l.length := by omega
  have h1 : p + 1 < l.length := by omega
  have h2 : p + 2 < l.length := by omega
  have h3 : p + 3 < l.length := by omega
  rw [List.drop_eq_getElem_cons h0, List.take_succ_cons,
    List.drop_eq_getElem_cons h1, List.take_succ_cons,
    List.drop_eq_getElem_cons h2, List.take_succ_cons,
    List.drop_eq_getElem_cons h3, List.take_succ_cons]
  simp [beVal, be4, List.getD_eq_getElem, h0, h1, h2, h3]

/-- Full characterization of one entry iteration: it succeeds exactly when
the 11 consumed bytes are in range of the (`u8`-wrapped) entry offset,
returning the id byte at that offset, the two big-endian fields, and the
state advanced past byte 10 of the entry with the entry's
seek-then-five-reads events logged. -/
theorem readEntry_eq (i : Nat) (s : RState) :
    readEntry i s =
      if entryOffset i + 11 ≤ s.stream.length then
        .ok ((entryId s.stream i, entryLoc s.stream i),
          ⟨s.stream, entryOffset i + 11, (entryTrace i).reverse ++ s.trace⟩)
      else .error .eof := by
  by_cases h : entryOffset i + 11 ≤ s.stream.length
  · rw [if_pos h]
    have c1 : entryOffset i + 1 ≤ s.stream.length := by omega
    have c2 : entryOffset i + 1 + 1 ≤ s.stream.length := by omega
    have c3 : entryOffset i + 1 + 1 + 4 ≤ s.stream.length := by omega
    have c4 : entryOffset i + 1 + 1 + 4 + 4 ≤ s.stream.length := by omega
    have c5 : entryOffset i + 1 + 1 + 4 + 4 + 1 ≤ s.stream.length := by omega
    have e3 : beVal ((s.stream.drop (entryOffset i + 1 + 1)).take 4) =
        be4 s.stream (entryOffset i + 2) := by
      rw [show entryOffset i + 1 + 1 = entryOffset i + 2 by omega]
      exact beVal_take_drop _ _ (by omega)
    have e4 : beVal ((s.stream.drop (entryOffset i + 1 + 1 + 4)).take 4) =
        be4 s.stream (entryOffset i + 6) := by
      rw [show entryOffset i + 1 + 1 + 4 = entryOffset i + 6 by omega]
      exact beVal_take_drop _ _ (by omega)
    simp [readEntry, rReadU8, rReadBeU32, rRead, rSeek, c1, c2, c3, c4, c5,
      headD_take_drop, e3, e4, entryId, entryLoc, entryTrace]
  · rw [if_neg h]
    unfold readEntry rReadU8 rReadBeU32
    simp only [rRead, rSeek]
    by_cases c1 : entryOffset i + 1 ≤ s.stream.length
    · simp only [c1, if_true]
      by_cases c2 : entryOffset i + 1 + 1 ≤ s.stream.length
      · simp only [c2, if_true]
        by_cases c3 : entryOffset i + 1 + 1 + 4 ≤ s.stream.length
        · simp only [c3, if_true]
          by_cases c4 : entryOffset i + 1 + 1 + 4 + 4 ≤ s.stream.length
          · have c5 : ¬ (entryOffset i + 1 + 1 + 4 + 4 + 1 ≤ s.stream.length) := by
              omega
            simp [c4, c5]
          · simp [c4]
        · simp [c3]
      · simp [c2]
    · simp [c1]

/-- The id dispatch writes `menu` exactly for id 1. -/
theorem applyEntry_menu (ics : Indices) (index_id : Nat) (loc : IndexLocation) :
    (applyEntry ics index_id loc).menu =
      if index_id = 1 then some loc else ics.menu := by
  unfold applyEntry
  split <;> simp_all

/-- The id dispatch writes `copyright` exactly for id 2. -/
theorem applyEntry_copyright (ics : Indices) (index_id : Nat) (loc : IndexLocation) :
    (applyEntry ics index_id loc).copyright =
      if index_id = 2 then some loc else ics.copyright := by
  unfold applyEntry
  split <;> simp_all

/-- Characterization of a successful entry loop: the stream is untouched, the
trace grows by the per-entry event blocks, and each recognized field holds the
last matching entry's location (falling back to its input value). -/
theorem readEntries_ok (n : Nat) :
    ∀ (i : Nat) (ics : Indices) (s : RState) (ics' : Indices) (s' : RState),
      readEntries n i ics s = .ok (ics', s') →
      s'.stream = s.stream ∧
      s'.trace = (entriesTrace n i).reverse ++ s.trace ∧
      ics'.menu = (lastLocIn s.stream 1 i n).or ics.menu ∧
      ics'.copyright = (lastLocIn s.stream 2 i n).or ics.copyright := by
  induction n with
  | zero =>
    intro i ics s ics' s' h
    simp only [readEntries] at h
    injection h with h'
    injection h' with h1 h2
    subst h1; subst h2
    simp [entriesTrace, lastLocIn]
  | succ n ih =>
    intro i ics s ics' s' h
    simp only [readEntries] at h
    rw [readEntry_eq] at h
    by_cases hb : entryOffset i + 11 ≤ s.stream.length
    · rw [if_pos hb] at h
      obtain ⟨H1, H2, H3, H4⟩ := ih (i + 1) _ _ _ _ h
      refine ⟨by simpa using H1, ?_, ?_, ?_⟩
      · rw [H2]
        simp [entriesTrace, List.reverse_append]
      · rw [H3]
        simp only [lastLocIn]
        cases hL : lastLocIn s.stream 1 (i + 1) n with
        | some l => simp
        | none =>
          simp only [Option.none_or, applyEntry_menu]
          by_cases heid : entryId s.stream i = 1 <;> simp [heid]
      · rw [H4]
        simp only [lastLocIn]
        cases hL : lastLocIn s.stream 2 (i + 1) n with
        | some l => simp
        | none =>
          simp only [Option.none_or, applyEntry_copyright]
          by_cases heid : entryId s.stream i = 2 <;> simp [heid]
    · rw [if_neg hb] at h
      exact Except.noConfusion h

/-- Characterization of a successful `Indices::read_from`: trace and result
fields in terms of the raw bytes (`n_indices` is the byte at offset 1). -/
theorem read_from_ok (s : RState) (ics' : Indices) (s' : RState)
    (h : Indices.read_from s = .ok (ics', s')) :
    s'.stream = s.stream ∧
    s'.trace = (headerTrace ++ entriesTrace (s.stream.getD 1 0) 0).reverse ++ s.trace ∧
    ics'.menu = lastLocIn s.stream 1 0 (s.stream.getD 1 0) ∧
    ics'.copyright = lastLocIn s.stream 2 0 (s.stream.getD 1 0) := by
  unfold Indices.read_from rReadU8 at h
  simp only [rRead, rSeek] at h
  by_cases l2 : 1 + 1 ≤ s.stream.length
  · by_cases l5 : 4 + 1 ≤ s.stream.length
    · simp only [l2, l5, if_true] at h
      simp only [headD_take_drop_getD] at h
      obtain ⟨H1, H2, H3, H4⟩ := readEntries_ok _ _ _ _ _ _ h
      refine ⟨by simpa using H1, ?_, by simpa using H3, by simpa using H4⟩
      rw [H2]
      simp [headerTrace, List.reverse_append]
    · simp [l2, l5] at h
  · simp [l2] at h

/-- A last-matching-entry location comes from a concrete entry index with the
matching id. -/
theorem lastLocIn_some (bytes : List Nat) (c : Nat) :
    ∀ (n i : Nat) (l : IndexLocation), lastLocIn bytes c i n = some l →
      ∃ j, i ≤ j ∧ j < i + n ∧ entryId bytes j = c ∧ l = entryLoc bytes j := by
  intro n
  induction n with
  | zero => intro i l h; simp [lastLocIn] at h
  | succ n ih =>
    intro i l h
    simp only [lastLocIn] at h
    cases hL : lastLocIn bytes c (i + 1) n with
    | some l' =>
      rw [hL] at h
      injection h with h'
      obtain ⟨j, hij, hjn, hid, hl⟩ := ih (i + 1) l' hL
      exact ⟨j, by omega, by omega, hid, h'.symm.trans hl⟩
    | none =>
      rw [hL] at h
      by_cases hc : entryId bytes i = c
      · rw [if_pos hc] at h
        injection h with h'
        exact ⟨i, le_refl i, by omega, hc, h'.symm⟩
      · rw [if_neg hc] at h
        exact Option.noConfusion h

/-! ## C5: seek-per-field -/

/-- **C5, counterexample.** On a concrete one-entry table the parse succeeds,
but the chronological trace contains field reads (the four reads after an
entry's id byte) that are not immediately preceded by a seek: the claim that
every field read is preceded by an explicit seek fails. -/
theorem c5_seek_per_field_cex :
    isOkE (Indices.read_from (initR bytesOneEntry)) = true ∧
    (traceOfRun bytesOneEntry).map (readsSeeked false) = some false :=
  ⟨rfl, rfl⟩

/-- **C5, amended.** On every successful parse the chronological operation
trace is exactly: a seek to offset 1 before the entry-count read, a seek to
offset 4 before the availability read, and — per entry `i` — one explicit
seek to the entry's offset `16 + 16*i`, computed in `u8` arithmetic (so it
wraps modulo 256 for `i ≥ 15`), followed by the five sequential field reads
(1, 1, 4, 4, 1 bytes); only each entry's first read is preceded by a seek,
the remaining fields rely on sequential positioning. -/
theorem c5_seek_per_entry (bytes : List Nat) (ics : Indices) (s' : RState)
    (h : Indices.read_from (initR bytes) = .ok (ics, s')) :
    s'.trace.reverse = headerTrace ++ entriesTrace (bytes.getD 1 0) 0 := by
  obtain ⟨-, H2, -, -⟩ := read_from_ok _ _ _ h
  rw [H2]
  simp [initR]

/-- Witness for the amended C5 on the one-entry table. -/
theorem c5_seek_per_entry_witness :
    stOneEntry.trace.reverse = headerTrace ++ entriesTrace (bytesOneEntry.getD 1 0) 0 :=
  c5_seek_per_entry bytesOneEntry ⟨some ⟨5, 3⟩, none⟩ stOneEntry rfl

/-! ## C6: stored pages -/

/-- **C6, counterexample.** A table whose single entry stores start page 0
parses successfully and yields a `menu` location with `page = 0 < 1`: the
invariant "every stored `page` is ≥ 1" fails. -/
theorem c6_page_ge_one_cex :
    (Indices.read_from (initR bytesZeroPage)).map (fun p => p.1.menu.map (·.page)) =
      .ok (some 0) ∧ ¬ (1 ≤ 0) :=
  ⟨rfl, by decide⟩

/-- **C6, amended.** Every `IndexLocation` stored by a successful parse has
`page ≥ 1` provided every entry record's big-endian start-page field — read 2
bytes past the entry's `u8`-wrapped offset — is nonzero; the parser copies
that field verbatim and enforces nothing. -/
theorem c6_page_ge_one (bytes : List Nat) (ics : Indices) (s' : RState)
    (h : Indices.read_from (initR bytes) = .ok (ics, s'))
    (hp : ∀ j, j < bytes.getD 1 0 → 1 ≤ be4 bytes (entryOffset j + 2)) :
    (ics.menu.all fun loc => decide (1 ≤ loc.page)) = true ∧
    (ics.copyright.all fun loc => decide (1 ≤ loc.page)) = true := by
  obtain ⟨-, -, H3, H4⟩ := read_from_ok _ _ _ h
  constructor
  · rw [H3]
    cases hL : lastLocIn (initR bytes).stream 1 0 ((initR bytes).stream.getD 1 0) with
    | none => rfl
    | some loc =>
      obtain ⟨j, h0j, hjn, hid, hl⟩ := lastLocIn_some _ _ _ _ _ hL
      subst hl
      have := hp j (by simpa [initR] using hjn)
      simpa [Option.all, entryLoc, initR] using this
  · rw [H4]
    cases hL : lastLocIn (initR bytes).stream 2 0 ((initR bytes).stream.getD 1 0) with
    | none => rfl
    | some loc =>
      obtain ⟨j, h0j, hjn, hid, hl⟩ := lastLocIn_some _ _ _ _ _ hL
      subst hl
      have := hp j (by simpa [initR] using hjn)
      simpa [Option.all, entryLoc, initR] using this

/-- Witness for the amended C6 on the two-entry table with pages 5 and 10. -/
theorem c6_page_ge_one_witness :
    ((⟨some ⟨5, 3⟩, some ⟨10, 1⟩⟩ : Indices).menu.all
        fun loc => decide (1 ≤ loc.page)) = true ∧
    ((⟨some ⟨5, 3⟩, some ⟨10, 1⟩⟩ : Indices).copyright.all
        fun loc => decide (1 ≤ loc.page)) = true :=
  c6_page_ge_one bytesTwo ⟨some ⟨5, 3⟩, some ⟨10, 1⟩⟩ (stTwoEntries bytesTwo) rfl
    (by decide)

/-! ## C7: last write wins -/

/-- **C7.** Entries are processed in ascending index order and a duplicated
recognized id keeps the later entry's location: on every successful parse,
`menu` is the location of the **last** entry with id `0x01` (and `copyright`
that of the last entry with id `0x02`). -/
theorem c7_last_write_wins (bytes : List Nat) (ics : Indices) (s' : RState)
    (h : Indices.read_from (initR bytes) = .ok (ics, s')) :
    ics.menu = lastLocIn bytes 1 0 (bytes.getD 1 0) ∧
    ics.copyright = lastLocIn bytes 2 0 (bytes.getD 1 0) := by
  obtain ⟨-, -, H3, H4⟩ := read_from_ok _ _ _ h
  exact ⟨H3, H4⟩

/-- Witness for C7 on a table with two id-`0x01` entries: the second entry's
location (page 10) is retained. -/
theorem c7_last_write_wins_witness :
    (⟨some ⟨10, 1⟩, none⟩ : Indices).menu = lastLocIn bytesDup 1 0 (bytesDup.getD 1 0) ∧
    (⟨some ⟨10, 1⟩, none⟩ : Indices).copyright =
      lastLocIn bytesDup 2 0 (bytesDup.getD 1 0) :=
  c7_last_write_wins bytesDup ⟨some ⟨10, 1⟩, none⟩ (stTwoEntries bytesDup) rfl

/-! ## C8: unrecognized ids are dropped silently -/

/-- **C8.** Processing an entry whose id is neither `0x01` nor `0x02` leaves
both `menu` and `copyright` unchanged and produces no error: the dispatch is
the identity on the `Indices` under construction and the loop simply moves on
to the next entry. -/
theorem c8_unrecognized_id (n i : Nat) (ics : Indices) (index_id : Nat)
    (loc : IndexLocation) (s s' : RState)
    (h1 : index_id ≠ 0x01) (h2 : index_id ≠ 0x02)
    (hr : readEntry i s = .ok ((index_id, loc), s')) :
    applyEntry ics index_id loc = ics ∧
      readEntries (n + 1) i ics s = readEntries n (i + 1) ics s' := by
  have happ : applyEntry ics index_id loc = ics := by
    unfold applyEntry
    split <;> simp_all
  refine ⟨happ, ?_⟩
  simp only [readEntries, hr, happ]

/-- Witness for C8 on the concrete entry with id `0x03`. -/
theorem c8_unrecognized_id_witness :
    applyEntry ⟨none, none⟩ 3 ⟨5, 3⟩ = ⟨none, none⟩ ∧
      readEntries 1 0 ⟨none, none⟩ (initR bytesId3) =
        readEntries 0 1 ⟨none, none⟩ stId3 :=
  c8_unrecognized_id 0 0 ⟨none, none⟩ 3 ⟨5, 3⟩ (initR bytesId3) stId3
    (by decide) (by decide) rfl
